import Mathlib

/-!
Shallow embedding of the go-xattr package (extended file attributes for
Linux and OSX) and proofs about its portable facade.

The repository has one portable file, `xattr.go`, and per-platform files.
Only the two `isNotExist` platform functions are available; the raw
syscall wrappers (`get`, `set`, `list`, `remove`), the namespace
constant and `stripPrefix` live in the platform files and are modelled
from the spec where noted.

Conventions of the embedding:
- Go `[]byte` is `Bytes := List Nat`; a `nil` slice is `Option.none`
  while an allocated empty slice is `some []`.
- Go `error` values are `Option GoErr` (`none` is Go `nil`).
- The `*XAttrError` struct is the `GoErr.xattrError` constructor;
  a Go type assertion `err.(*XAttrError)` is a match on it.
- A syscall that fills a caller-supplied buffer is a pure function
  returning the bytes it wrote, the reported size and the error; the
  post-call buffer is computed by `writeInto`, which preserves length
  as real memory does.
- `Get` and `ListAttrs` issue two syscalls; to model the world changing
  between them (the race the package documents) they take two adapter
  snapshots `a1` and `a2`, one per call. `a1 = a2` is the quiescent case.
- Go run-time panics (out-of-range slice bounds, negative `make`) are
  the `GoOutcome.panicked` outcome.
-/

/-- Go byte slices, as lists of naturals (each a byte value). -/
abbrev Bytes := List Nat

/-- Go `error` values occurring in this package: raw system errors
(`syscall.Errno`, identified by code and message), the package's
`*XAttrError` struct (fields `Op`, `Path`, `Attr`, `Err`), and any
other error value. -/
inductive GoErr where
  | errno (code : Nat) (msg : String)
  | xattrError (op path attr : String) (err : GoErr)
  | other (msg : String)
  deriving Repr, DecidableEq

/-- `syscall.ENODATA`, the Linux "no data available" errno. -/
def ENODATA : GoErr := .errno 61 "no data available"

/-- `syscall.ENOATTR`, the Darwin "attribute not found" errno. -/
def ENOATTR : GoErr := .errno 93 "attribute not found"

/-- `syscall.ERANGE`, returned when a destination buffer is too small. -/
def ERANGE : GoErr := .errno 34 "result too large"

/-- The `Error()` method: `e.Op + " " + e.Path + " " + e.Attr + ": " + e.Err.Error()`
for the `XAttrError` struct; raw errors render their own message. -/
def GoErr.errorString : GoErr → String
  | .errno _ msg => msg
  | .other msg => msg
  | .xattrError op path attr err =>
      op ++ " " ++ path ++ " " ++ attr ++ ": " ++ err.errorString

/-- Whether a Go error value is a `*XAttrError` (type assertion succeeds). -/
def GoErr.isWrapped : GoErr → Bool
  | .xattrError _ _ _ _ => true
  | _ => false

/-- The `Op` field of a wrapped error. -/
def GoErr.opField : GoErr → Option String
  | .xattrError op _ _ _ => some op
  | _ => none

/-- The `Path` field of a wrapped error. -/
def GoErr.pathField : GoErr → Option String
  | .xattrError _ path _ _ => some path
  | _ => none

/-- The `Attr` field of a wrapped error. -/
def GoErr.attrField : GoErr → Option String
  | .xattrError _ _ attr _ => some attr
  | _ => none

/-- The `Err` field of a wrapped error. -/
def GoErr.errField : GoErr → Option GoErr
  | .xattrError _ _ _ err => some err
  | _ => none

/-- The two operating systems the package supports. -/
inductive OS where
  | darwin
  | linux
  deriving Repr, DecidableEq

/-- `isNotExist` from `xattr_darwin.go`: `err.Err == syscall.ENOATTR`,
receiving the fields of the `*XAttrError`. -/
def isNotExistDarwin (_op _path _attr : String) (err : GoErr) : Bool :=
  err == ENOATTR

/-- `isNotExist` from the Linux platform file: `err.Err == syscall.ENODATA`. -/
def isNotExistLinux (_op _path _attr : String) (err : GoErr) : Bool :=
  err == ENODATA

/-- Build-target dispatch to the platform `isNotExist`. -/
def isNotExistOS (os : OS) (op path attr : String) (err : GoErr) : Bool :=
  match os with
  | .darwin => isNotExistDarwin op path attr err
  | .linux => isNotExistLinux op path attr err

/-- `IsNotExist` from `xattr.go`: type-assert to `*XAttrError`; on success
defer to the platform `isNotExist`, otherwise return false (also for a
`nil` error). -/
def IsNotExist (os : OS) (err : Option GoErr) : Bool :=
  match err with
  | some (.xattrError op path attr e) => isNotExistOS os op path attr e
  | _ => false

/-- Go `string(bs)` on a byte slice: the bytes, one character each. -/
def bytesToString (bs : Bytes) : String :=
  String.mk (bs.map Char.ofNat)

/-- The `for index, b := range buf` loop of `nullTermToStrings`, as a
recursion over the remaining bytes `rest` (invariant: `rest = buf.drop index`),
carrying `offset` and the accumulated `result`. `buf[offset:index]` is
`(buf.drop offset).take (index - offset)`. -/
def ntAux (buf : Bytes) : Bytes → Nat → Nat → List String → List String
  | [], _, _, result => result
  | b :: rest, index, offset, result =>
      if b = 0 then
        ntAux buf rest (index + 1) (index + 1)
          (result ++ [bytesToString ((buf.drop offset).take (index - offset))])
      else
        ntAux buf rest (index + 1) offset result

/-- `nullTermToStrings` from `xattr.go`: converts an array of
NUL-terminated strings to a list of strings. -/
def nullTermToStrings (buf : Bytes) : List String :=
  ntAux buf buf 0 0 []

/-- Result of a raw xattr syscall that may fill a destination buffer:
the bytes it wrote into the buffer, the reported size, and the error. -/
structure SysRet where
  written : Bytes
  sz : Int
  err : Option GoErr
  deriving Repr, DecidableEq

/-- A platform adapter: the raw syscall wrappers `get`, `set`, `list`,
`remove` of the per-platform files, as pure functions. `get` and `list`
take the destination buffer (`none` is a nil slice). -/
structure Adapter where
  get : String → String → Option Bytes → SysRet
  set : String → String → Bytes → Int → Option GoErr
  list : String → Option Bytes → SysRet
  remove : String → String → Option GoErr

/-- `Getxattr` from `xattr.go`: `return get(path, attr, dest)`. -/
def Getxattr (a : Adapter) (path attr : String) (dest : Option Bytes) : SysRet :=
  a.get path attr dest

/-- `Setxattr` from `xattr.go`: `return set(path, attr, data, flags)`. -/
def Setxattr (a : Adapter) (path attr : String) (data : Bytes) (flags : Int) :
    Option GoErr :=
  a.set path attr data flags

/-- `Listxattr` from `xattr.go`: `return list(path, dest)`. -/
def Listxattr (a : Adapter) (path : String) (dest : Option Bytes) : SysRet :=
  a.list path dest

/-- `Removexattr` from `xattr.go`: `return remove(path, attr)`. -/
def Removexattr (a : Adapter) (path attr : String) : Option GoErr :=
  a.remove path attr

/-- A syscall writing bytes `w` into the front of buffer `buf`: the
buffer's length never changes. -/
def writeInto (buf w : Bytes) : Bytes :=
  (w ++ buf.drop w.length).take buf.length

/-- Outcome of running a Go function that can panic at run time. -/
inductive GoOutcome (α : Type) where
  | ok (val : α)
  | panicked
  deriving Repr, DecidableEq

/-- Modelled from the spec: the namespace constant of the platform files
(missing from src). The package documentation fixes it to `"user."` on
Linux, and it is empty on Darwin. The facade is parameterised over it
as `pfx`. -/
def osPfx : OS → String
  | .linux => "user."
  | .darwin => ""

/-- `Get` from `xattr.go`: prepend the namespace to `attr`, discover the
size with `Getxattr(path, attr, nil)`, return `[]byte{}` on size 0,
otherwise `make` a buffer of that size, fill it with a second `Getxattr`
and return `buf[:size]` with the newly reported size. Errors are wrapped
as `&XAttrError{"getxattr", path, attr, err}`. `a1`/`a2` are the adapter
at the first and second call; `make` with a negative size and an
out-of-range slice bound panic. -/
def Get (pfx : String) (a1 a2 : Adapter) (path attr : String) :
    GoOutcome (Option Bytes × Option GoErr) :=
  let attr := pfx ++ attr
  let r1 := Getxattr a1 path attr none
  match r1.err with
  | some e => .ok (none, some (.xattrError "getxattr" path attr e))
  | none =>
      let size := r1.sz
      if size = 0 then .ok (some [], none)
      else if size < 0 then .panicked
      else
        let buf := List.replicate size.toNat 0
        let r2 := Getxattr a2 path attr (some buf)
        let buf2 := writeInto buf r2.written
        match r2.err with
        | some e => .ok (none, some (.xattrError "getxattr" path attr e))
        | none =>
            if 0 ≤ r2.sz ∧ r2.sz ≤ (buf2.length : Int) then
              .ok (some (buf2.take r2.sz.toNat), none)
            else .panicked

/-- Modelled from the spec: `stripPrefix` of the platform files (missing
from src) removes the namespace from every listed name; a name lacking
it is unspecified by the original design and is passed through unchanged. -/
def stripPfx (pfx : String) (names : List String) : List String :=
  names.map (fun s => if s.startsWith pfx then s.drop pfx.length else s)

/-- `List` from `xattr.go` (named `ListAttrs` here because `List` is taken):
discover the size with `Listxattr(path, nil)`, return `[]string{}` on
size 0, otherwise fill a buffer of that size with a second `Listxattr`
and return `stripPrefix(nullTermToStrings(buf[:size]))`. Errors are
wrapped with op `"listxattr"` and an empty `Attr`. -/
def ListAttrs (pfx : String) (a1 a2 : Adapter) (path : String) :
    GoOutcome (Option (List String) × Option GoErr) :=
  let r1 := Listxattr a1 path none
  match r1.err with
  | some e => .ok (none, some (.xattrError "listxattr" path "" e))
  | none =>
      let size := r1.sz
      if size = 0 then .ok (some [], none)
      else if size < 0 then .panicked
      else
        let buf := List.replicate size.toNat 0
        let r2 := Listxattr a2 path (some buf)
        let buf2 := writeInto buf r2.written
        match r2.err with
        | some e => .ok (none, some (.xattrError "listxattr" path "" e))
        | none =>
            if 0 ≤ r2.sz ∧ r2.sz ≤ (buf2.length : Int) then
              .ok (some (stripPfx pfx (nullTermToStrings (buf2.take r2.sz.toNat))), none)
            else .panicked

/-- `Set` from `xattr.go` (named `SetAttr` here because `Set` is taken): prepend the namespace, call
`Setxattr(path, attr, data, 0)`, wrap any error with op `"setxattr"`. -/
def SetAttr (pfx : String) (a : Adapter) (path attr : String) (data : Bytes) :
    Option GoErr :=
  let attr := pfx ++ attr
  match Setxattr a path attr data 0 with
  | some e => some (.xattrError "setxattr" path attr e)
  | none => none

/-- `Remove` from `xattr.go`: prepend the namespace, call
`Removexattr(path, attr)`, wrap any error with op `"removexattr"`. -/
def Remove (pfx : String) (a : Adapter) (path attr : String) : Option GoErr :=
  let attr := pfx ++ attr
  match Removexattr a path attr with
  | some e => some (.xattrError "removexattr" path attr e)
  | none => none

/-- The platform's "attribute absent" error constant, selected by build
target exactly as the platform `isNotExist` files are. -/
def absentErr : OS → GoErr
  | .darwin => ENOATTR
  | .linux => ENODATA

/-- A sample adapter whose every call fails with `ENODATA`. -/
def errAdapter : Adapter where
  get := fun _ _ _ => ⟨[], 0, some ENODATA⟩
  set := fun _ _ _ _ => some ENODATA
  list := fun _ _ => ⟨[], 0, some ENODATA⟩
  remove := fun _ _ => some ENODATA

/-- A sample adapter on which every get and list call succeeds and
reports size 0, and set and remove succeed. -/
def zeroAdapter : Adapter where
  get := fun _ _ _ => ⟨[], 0, none⟩
  set := fun _ _ _ _ => none
  list := fun _ _ => ⟨[], 0, none⟩
  remove := fun _ _ => none

/-- Scanner for two consecutive space characters in a character list. -/
def twoSpacesAux : List Char → Bool
  | c1 :: c2 :: rest => (c1 == ' ' && c2 == ' ') || twoSpacesAux (c2 :: rest)
  | _ => false

/-- Whether a string contains two consecutive spaces anywhere. -/
def hasTwoSpaces (s : String) : Bool :=
  twoSpacesAux s.data

/-- Any error produced by `Get` is the wrap of an underlying error `u`
as `XAttrError` with op `"getxattr"`, the caller's path, and the
prefixed attribute name, and the value result is then `nil`. -/
theorem Get_err_shape (pfx : String) (a1 a2 : Adapter) (path attr : String)
    (v : Option Bytes) (e : GoErr)
    (h : Get pfx a1 a2 path attr = .ok (v, some e)) :
    v = none ∧ ∃ u, e = .xattrError "getxattr" path (pfx ++ attr) u := by
  unfold Get Getxattr at h
  simp only [] at h
  split at h
  next e0 _ =>
    simp only [GoOutcome.ok.injEq, Prod.mk.injEq, Option.some.injEq] at h
    exact ⟨h.1.symm, e0, h.2.symm⟩
  next _ =>
    split at h
    · simp at h
    · split at h
      · exact absurd h (by simp)
      · split at h
        next e0 _ =>
          simp only [GoOutcome.ok.injEq, Prod.mk.injEq, Option.some.injEq] at h
          exact ⟨h.1.symm, e0, h.2.symm⟩
        next _ =>
          split at h
          · simp at h
          · exact absurd h (by simp)

/-- C1: the claim as stated is false. On Linux the namespace constant is
`"user."` (per the package documentation) and `Get` wraps the attribute
name only after prepending it, so for caller attribute `"foo"` the error's
`Attr` field is `"user.foo"`, not the caller-supplied unprefixed `"foo"`. -/
theorem c1_attr_field_cex :
    Get (osPfx .linux) errAdapter errAdapter "/tmp/f" "foo"
      = .ok (none, some (.xattrError "getxattr" "/tmp/f" "user.foo" ENODATA))
    ∧ (GoErr.xattrError "getxattr" "/tmp/f" "user.foo" ENODATA).attrField
      ≠ some "foo" := by
  constructor
  · decide
  · decide

/-- C1 (amended): any error returned by `Get`, `SetAttr` or `Remove` is a
wrapped `XAttrError` whose `Path` field is the caller-supplied path and
whose `Attr` field is the prefixed attribute name `pfx ++ attr`. -/
theorem c1_error_fields (pfx : String) (a1 a2 : Adapter) (path attr : String)
    (data : Bytes) :
    (∀ v e, Get pfx a1 a2 path attr = .ok (v, some e) →
        e.isWrapped = true ∧ e.pathField = some path
          ∧ e.attrField = some (pfx ++ attr))
    ∧ (∀ e, SetAttr pfx a1 path attr data = some e →
        e.isWrapped = true ∧ e.pathField = some path
          ∧ e.attrField = some (pfx ++ attr))
    ∧ (∀ e, Remove pfx a1 path attr = some e →
        e.isWrapped = true ∧ e.pathField = some path
          ∧ e.attrField = some (pfx ++ attr)) := by
  refine ⟨?_, ?_, ?_⟩
  · intro v e h
    obtain ⟨-, u, rfl⟩ := Get_err_shape pfx a1 a2 path attr v e h
    exact ⟨rfl, rfl, rfl⟩
  · intro e h
    unfold SetAttr Setxattr at h
    simp only [] at h
    split at h
    next e0 _ =>
      simp only [Option.some.injEq] at h
      subst h
      exact ⟨rfl, rfl, rfl⟩
    next => exact absurd h (by simp)
  · intro e h
    unfold Remove Removexattr at h
    simp only [] at h
    split at h
    next e0 _ =>
      simp only [Option.some.injEq] at h
      subst h
      exact ⟨rfl, rfl, rfl⟩
    next => exact absurd h (by simp)

/-- C1 (amended) at a concrete input: on Linux, a failing `Get` on
attribute `"foo"` yields a wrapped error whose `Attr` field is the
prefixed name `"user." ++ "foo"`. -/
theorem c1_error_fields_witness :
    (GoErr.xattrError "getxattr" "/tmp/f" "user.foo" ENODATA).isWrapped = true
    ∧ (GoErr.xattrError "getxattr" "/tmp/f" "user.foo" ENODATA).pathField
      = some "/tmp/f"
    ∧ (GoErr.xattrError "getxattr" "/tmp/f" "user.foo" ENODATA).attrField
      = some (osPfx .linux ++ "foo") :=
  (c1_error_fields (osPfx .linux) errAdapter errAdapter "/tmp/f" "foo" []).1
    none (GoErr.xattrError "getxattr" "/tmp/f" "user.foo" ENODATA) (by decide)

/-- C3: `IsNotExist` is true exactly on wrapped `XAttrError` values whose
underlying `Err` is the platform's attribute-absent constant (`ENOATTR`
on Darwin, `ENODATA` on Linux); any non-`XAttrError` value, including a
nil error or a raw errno, yields false. -/
theorem c3_isNotExist_characterisation (os : OS) (err : Option GoErr) :
    IsNotExist os err = true ↔
      ∃ op path attr,
        err = some (.xattrError op path attr (absentErr os)) := by
  constructor
  · intro h
    match err with
    | none => simp [IsNotExist] at h
    | some (.errno c m) => simp [IsNotExist] at h
    | some (.other m) => simp [IsNotExist] at h
    | some (.xattrError op path attr e) =>
        refine ⟨op, path, attr, ?_⟩
        cases os <;>
          simp_all [IsNotExist, isNotExistOS, isNotExistDarwin, isNotExistLinux,
            absentErr, beq_iff_eq]
  · rintro ⟨op, path, attr, rfl⟩
    cases os <;>
      simp [IsNotExist, isNotExistOS, isNotExistDarwin, isNotExistLinux,
        absentErr, beq_iff_eq]

/-- C7: `SetAttr` prepends the namespace exactly once and calls the raw
set operation with `flags = 0`; it returns nil on success and the
wrapped error with op `"setxattr"` on failure. -/
theorem c7_set_flags_zero (pfx : String) (a : Adapter) (path attr : String)
    (data : Bytes) :
    SetAttr pfx a path attr data =
      match a.set path (pfx ++ attr) data 0 with
      | some e => some (.xattrError "setxattr" path (pfx ++ attr) e)
      | none => none := by
  rfl

/-- C8: the four low-level operations are definitional pass-throughs to
the platform adapter's `get`, `set`, `list` and `remove`: same arguments,
raw buffers, raw errors, no prefixing and no wrapping. -/
theorem c8_lowlevel_passthrough (a : Adapter) :
    Getxattr a = a.get ∧ Setxattr a = a.set
      ∧ Listxattr a = a.list ∧ Removexattr a = a.remove :=
  ⟨rfl, rfl, rfl, rfl⟩

/-- C10: the claim as stated is false in its consequence for list errors:
for the wrapped list error with empty `Attr`, `Error()` produces
`"listxattr /tmp/f : no data available"`, which has a single space before
the colon and contains no two consecutive spaces anywhere. -/
theorem c10_two_spaces_cex :
    (GoErr.xattrError "listxattr" "/tmp/f" "" ENODATA).errorString
      = "listxattr /tmp/f : no data available"
    ∧ hasTwoSpaces
        ((GoErr.xattrError "listxattr" "/tmp/f" "" ENODATA).errorString)
      = false := by
  constructor
  · decide
  · decide

/-- C10 (amended): `Error()` returns exactly
`Op ++ " " ++ Path ++ " " ++ Attr ++ ": " ++ Err.Error()`; when `Attr`
is empty (a list error) the rendering is `Op ++ " " ++ Path ++ " : " ++
Err.Error()`, a single space before the colon. -/
theorem c10_error_format (op path attr : String) (u : GoErr) :
    (GoErr.xattrError op path attr u).errorString
      = op ++ " " ++ path ++ " " ++ attr ++ ": " ++ u.errorString
    ∧ (GoErr.xattrError op path "" u).errorString
      = op ++ " " ++ path ++ " : " ++ u.errorString := by
  constructor
  · rfl
  · show op ++ " " ++ path ++ " " ++ "" ++ ": " ++ u.errorString = _
    simp [String.append_assoc, String.append_empty]

/-- Reference splitter for C2: `termSegsP pending bs` yields one segment
per zero byte of `bs`, each segment being the bytes since the previous
zero (`pending` holds the bytes already seen before `bs`); bytes after
the last zero are dropped. -/
def termSegsP (pending : Bytes) : Bytes → List Bytes
  | [] => []
  | b :: bs => if b = 0 then pending :: termSegsP [] bs
               else termSegsP (pending ++ [b]) bs

/-- The loop of `nullTermToStrings` computes `termSegsP` of the pending
slice `buf[offset:index]` and the remaining bytes. -/
theorem ntAux_eq_termSegsP (buf : Bytes) :
    ∀ (rest : Bytes) (index offset : Nat) (result : List String),
      buf.drop index = rest → offset ≤ index →
      ntAux buf rest index offset result
        = result
          ++ (termSegsP ((buf.drop offset).take (index - offset)) rest).map
              bytesToString := by
  intro rest
  induction rest with
  | nil =>
      intro index offset result _ _
      simp [ntAux, termSegsP]
  | cons b bs ih =>
      intro index offset result hdrop hle
      have hget : buf[index]? = some b := by
        rw [← List.head?_drop, hdrop, List.head?_cons]
      have hdrop1 : buf.drop (index + 1) = bs := by
        rw [← List.tail_drop, hdrop, List.tail_cons]
      by_cases hb : b = 0
      · subst hb
        rw [ntAux, if_pos rfl]
        rw [ih (index + 1) (index + 1)
          (result ++ [bytesToString ((buf.drop offset).take (index - offset))])
          hdrop1 (le_refl _)]
        rw [termSegsP, if_pos rfl]
        simp
      · rw [ntAux, if_neg hb]
        rw [ih (index + 1) offset result hdrop1 (Nat.le_succ_of_le hle)]
        rw [termSegsP, if_neg hb]
        have htake : (buf.drop offset).take (index + 1 - offset)
            = (buf.drop offset).take (index - offset) ++ [b] := by
          have hn : index + 1 - offset = (index - offset) + 1 :=
            Nat.succ_sub hle
        
          rw [hn, List.take_succ, List.getElem?_drop,
            Nat.add_sub_cancel' hle, hget]
          rfl
        rw [htake]

/-- `nullTermToStrings` equals the reference splitter (with empty pending
segment) rendered as strings. -/
theorem nullTermToStrings_eq_termSegsP (buf : Bytes) :
    nullTermToStrings buf = (termSegsP [] buf).map bytesToString := by
  have h := ntAux_eq_termSegsP buf buf 0 0 [] (by simp) (Nat.le_refl 0)
  simpa [nullTermToStrings] using h

/-- `modifyHead` with a vacuous prepend is the identity. -/
theorem modifyHead_nil_append (l : List Bytes) :
    l.modifyHead (fun s => ([] : Bytes) ++ s) = l := by
  cases l <;> simp

/-- The reference splitter is `splitOn` at the zero byte with the
trailing (unterminated) segment dropped, the head segment extended by
the pending bytes. -/
theorem termSegsP_eq_splitOn (bs : Bytes) :
    ∀ pending, termSegsP pending bs
      = ((bs.splitOn 0).modifyHead (fun s => pending ++ s)).dropLast := by
  induction bs with
  | nil =>
      intro pending
      simp [termSegsP, List.splitOn, List.splitOnP_nil]
  | cons b t ih =>
      intro pending
      obtain ⟨c, cs, hsplit⟩ :=
        List.exists_cons_of_ne_nil (List.splitOnP_ne_nil (· == 0) t)
      by_cases hb : b = 0
      · subst hb
        rw [termSegsP, if_pos rfl, ih []]
        show _ = (((0 :: t).splitOnP (· == 0)).modifyHead _).dropLast
        rw [List.splitOnP_cons]
        simp only [beq_self_eq_true, if_pos]
        show _ = ((([] : Bytes) :: t.splitOnP (· == 0)).modifyHead
          (fun s => pending ++ s)).dropLast
        rw [List.modifyHead_cons]
        show pending :: ((t.splitOn 0).modifyHead _).dropLast = _
        rw [show (t.splitOn 0) = t.splitOnP (· == 0) from rfl, hsplit]
        simp [List.dropLast]
      · rw [termSegsP, if_neg hb, ih (pending ++ [b])]
        show _ = (((b :: t).splitOnP (· == 0)).modifyHead _).dropLast
        rw [List.splitOnP_cons]
        have hbeq : (b == 0) = false := by simpa using hb
        rw [hbeq]
        simp only [Bool.false_eq_true, if_false]
        rw [show (t.splitOn 0) = t.splitOnP (· == 0) from rfl, hsplit]
        simp [List.dropLast, List.append_assoc]

/-- The reference splitter yields exactly one segment per zero byte. -/
theorem termSegsP_length (bs : Bytes) :
    ∀ pending, (termSegsP pending bs).length = bs.count 0 := by
  induction bs with
  | nil => intro pending; simp [termSegsP]
  | cons b t ih =>
      intro pending
      by_cases hb : b = 0
      · subst hb
        simp [termSegsP, ih, List.count_cons]
      · simp [termSegsP, hb, ih, List.count_cons]

/-- C2: `nullTermToStrings` returns, in order, one string per zero byte
of the buffer — the rendered segments of `splitOn 0` with the trailing
unterminated segment dropped; each segment is the bytes strictly between
the previous zero (or the start) and that zero, and a buffer without
zeros yields no names (`count 0 = 0`). -/
theorem c2_list_name_decoder (buf : Bytes) :
    nullTermToStrings buf = ((buf.splitOn 0).dropLast).map bytesToString
    ∧ (nullTermToStrings buf).length = buf.count 0 := by
  have h1 := nullTermToStrings_eq_termSegsP buf
  have h2 := termSegsP_eq_splitOn buf []
  rw [modifyHead_nil_append] at h2
  refine ⟨by rw [h1, h2], ?_⟩
  rw [h1, List.length_map, termSegsP_length]

/-- Writing into a buffer never changes its length. -/
theorem writeInto_length (buf w : Bytes) :
    (writeInto buf w).length = buf.length := by
  simp only [writeInto, List.length_take, List.length_append, List.length_drop]
  omega

/-- The successful two-call path of `Get`: a positive discovered size,
then an in-bounds fill, yields the filled buffer truncated to the newly
reported size. -/
theorem Get_fill_result (pfx : String) (a1 a2 : Adapter)
    (path attr : String) (w0 w : Bytes) (size sz : Int)
    (h1 : a1.get path (pfx ++ attr) none = ⟨w0, size, none⟩)
    (hpos : 0 < size)
    (h2 : a2.get path (pfx ++ attr) (some (List.replicate size.toNat 0))
      = ⟨w, sz, none⟩)
    (hsz0 : 0 ≤ sz) (hsz : sz ≤ size) :
    Get pfx a1 a2 path attr
      = .ok (some ((writeInto (List.replicate size.toNat 0) w).take sz.toNat),
          none) := by
  have hlen : ((writeInto (List.replicate size.toNat 0) w).length : Int)
      = size := by
    rw [writeInto_length, List.length_replicate, Int.toNat_of_nonneg hpos.le]
  unfold Get Getxattr
  simp only []
  rw [h1]
  simp only []
  rw [if_neg (by omega), if_neg (by omega)]
  rw [h2]
  simp only []
  rw [if_pos (by rw [hlen]; exact ⟨hsz0, hsz⟩)]

/-- C5: when the size-discovery call reports `size > 0` and the fill call
succeeds reporting `sz` within bounds, `Get` returns exactly the first
`sz` bytes of the filled buffer of length `size` — truncated to the
newly reported size, of length exactly `sz`, never zero-padded — even
when `sz` differs from `size`. -/
theorem c5_truncate_to_reported_size (pfx : String) (a1 a2 : Adapter)
    (path attr : String) (w0 w : Bytes) (size sz : Int)
    (h1 : a1.get path (pfx ++ attr) none = ⟨w0, size, none⟩)
    (hpos : 0 < size)
    (h2 : a2.get path (pfx ++ attr) (some (List.replicate size.toNat 0))
      = ⟨w, sz, none⟩)
    (hsz0 : 0 ≤ sz) (hsz : sz ≤ size) :
    Get pfx a1 a2 path attr
      = .ok (some ((writeInto (List.replicate size.toNat 0) w).take sz.toNat),
          none)
    ∧ ((writeInto (List.replicate size.toNat 0) w).take sz.toNat).length
      = sz.toNat := by
  refine ⟨Get_fill_result pfx a1 a2 path attr w0 w size sz h1 hpos h2 hsz0
    hsz, ?_⟩
  have hlen := writeInto_length (List.replicate size.toNat 0) w
  rw [List.length_take]
  have h1 : sz.toNat ≤ size.toNat := Int.toNat_le_toNat hsz
  rw [List.length_replicate] at hlen
  omega

/-- C5 at a concrete input: discovery reports 5, the fill writes
`[1, 2, 3, 4, 5]` but reports only 3; `Get` returns `[1, 2, 3]`. -/
theorem c5_truncate_witness :
    Get "user."
      { get := fun _ _ _ => ⟨[], 5, none⟩,
        set := fun _ _ _ _ => none,
        list := fun _ _ => ⟨[], 0, none⟩,
        remove := fun _ _ => none }
      { get := fun _ _ _ => ⟨[1, 2, 3, 4, 5], 3, none⟩,
        set := fun _ _ _ _ => none,
        list := fun _ _ => ⟨[], 0, none⟩,
        remove := fun _ _ => none }
      "/tmp/f" "foo"
      = .ok (some ((writeInto (List.replicate (5 : Int).toNat 0)
          [1, 2, 3, 4, 5]).take (3 : Int).toNat), none)
    ∧ ((writeInto (List.replicate (5 : Int).toNat 0)
          [1, 2, 3, 4, 5]).take (3 : Int).toNat).length = (3 : Int).toNat :=
  c5_truncate_to_reported_size "user."
    { get := fun _ _ _ => ⟨[], 5, none⟩,
      set := fun _ _ _ _ => none,
      list := fun _ _ => ⟨[], 0, none⟩,
      remove := fun _ _ => none }
    { get := fun _ _ _ => ⟨[1, 2, 3, 4, 5], 3, none⟩,
      set := fun _ _ _ _ => none,
      list := fun _ _ => ⟨[], 0, none⟩,
      remove := fun _ _ => none }
    "/tmp/f" "foo" [] [1, 2, 3, 4, 5] 5 3 rfl (by decide) rfl (by decide)
    (by decide)

/-- C6: when the size-discovery call reports size 0 with no error, `Get`
returns a non-nil empty byte slice (`some []`) with nil error and
`ListAttrs` returns an empty name list with nil error, and the result
does not depend on the second-call adapter at all: the fill call is
never issued. -/
theorem c6_size_zero_fast_path (pfx : String) (a1 : Adapter)
    (path attr : String) (w0 w1 : Bytes)
    (hget : a1.get path (pfx ++ attr) none = ⟨w0, 0, none⟩)
    (hlist : a1.list path none = ⟨w1, 0, none⟩) :
    (∀ a2, Get pfx a1 a2 path attr = .ok (some [], none))
    ∧ (∀ a2, ListAttrs pfx a1 a2 path = .ok (some [], none)) := by
  constructor
  · intro a2
    unfold Get Getxattr
    simp only []
    rw [hget]
    rfl
  · intro a2
    unfold ListAttrs Listxattr
    simp only []
    rw [hlist]
    rfl

/-- C6 at a concrete input: on `zeroAdapter` both discovery calls report
size 0, and `Get` and `ListAttrs` return empty non-nil results no matter
which adapter would serve a second call (here: `errAdapter`). -/
theorem c6_size_zero_witness :
    Get "user." zeroAdapter errAdapter "/tmp/f" "foo" = .ok (some [], none)
    ∧ ListAttrs "user." zeroAdapter errAdapter "/tmp/f"
      = .ok (some [], none) :=
  ⟨(c6_size_zero_fast_path "user." zeroAdapter "/tmp/f" "foo" [] [] rfl
      rfl).1 errAdapter,
   (c6_size_zero_fast_path "user." zeroAdapter "/tmp/f" "foo" [] [] rfl
      rfl).2 errAdapter⟩

/-- An adapter whose discovery calls report size 1. -/
def oneAdapter : Adapter where
  get := fun _ _ _ => ⟨[], 1, none⟩
  set := fun _ _ _ _ => none
  list := fun _ _ => ⟨[], 1, none⟩
  remove := fun _ _ => none

/-- An adapter whose fill calls overreport: size 2 regardless of the
buffer they were handed. -/
def overReportAdapter : Adapter where
  get := fun _ _ _ => ⟨[], 2, none⟩
  set := fun _ _ _ _ => none
  list := fun _ _ => ⟨[], 2, none⟩
  remove := fun _ _ => none

/-- C9: `Get` and `ListAttrs` cannot panic provided the adapter never
reports, on success, a negative size, and on a fill call never reports a
size larger than the buffer it was given; the code checks neither — and
the guarantee is genuinely load-bearing: an adapter pair that reports
size 1 at discovery and size 2 at fill drives both operations into the
out-of-range slice panic. -/
theorem c9_no_panic (pfx : String) (a1 a2 : Adapter) (path attr : String)
    (hg1 : ∀ p q w sz, a1.get p q none = ⟨w, sz, none⟩ → 0 ≤ sz)
    (hg2 : ∀ p q d w sz, a2.get p q (some d) = ⟨w, sz, none⟩ →
      0 ≤ sz ∧ sz ≤ (d.length : Int))
    (hl1 : ∀ p w sz, a1.list p none = ⟨w, sz, none⟩ → 0 ≤ sz)
    (hl2 : ∀ p d w sz, a2.list p (some d) = ⟨w, sz, none⟩ →
      0 ≤ sz ∧ sz ≤ (d.length : Int)) :
    (Get pfx a1 a2 path attr ≠ .panicked
      ∧ ListAttrs pfx a1 a2 path ≠ .panicked)
    ∧ (Get pfx oneAdapter overReportAdapter path attr = .panicked
      ∧ ListAttrs pfx oneAdapter overReportAdapter path = .panicked) := by
  refine ⟨⟨?_, ?_⟩, rfl, rfl⟩
  · unfold Get Getxattr
    simp only []
    rcases h1 : a1.get path (pfx ++ attr) none with ⟨w0, size, e1⟩
    rcases e1 with _ | e0
    · simp only []
      have hsize := hg1 _ _ _ _ h1
      by_cases hz : size = 0
      · rw [if_pos hz]; simp
      · rw [if_neg hz, if_neg (by omega)]
        rcases h2 : a2.get path (pfx ++ attr)
            (some (List.replicate size.toNat 0)) with ⟨w, sz, e2⟩
        rcases e2 with _ | e0
        · simp only []
          obtain ⟨hs0, hsle⟩ := hg2 _ _ _ _ _ h2
          rw [if_pos]
          · simp
          · refine ⟨hs0, ?_⟩
            rw [writeInto_length]
            exact hsle
        · simp
    · simp
  · unfold ListAttrs Listxattr
    simp only []
    rcases h1 : a1.list path none with ⟨w0, size, e1⟩
    rcases e1 with _ | e0
    · simp only []
      have hsize := hl1 _ _ _ h1
      by_cases hz : size = 0
      · rw [if_pos hz]; simp
      · rw [if_neg hz, if_neg (by omega)]
        rcases h2 : a2.list path
            (some (List.replicate size.toNat 0)) with ⟨w, sz, e2⟩
        rcases e2 with _ | e0
        · simp only []
          obtain ⟨hs0, hsle⟩ := hl2 _ _ _ _ h2
          rw [if_pos]
          · simp
          · refine ⟨hs0, ?_⟩
            rw [writeInto_length]
            exact hsle
        · simp
    · simp

/-- C9 at a concrete input: `zeroAdapter` honours the size guarantees,
so `Get` and `ListAttrs` over it cannot panic. -/
theorem c9_no_panic_witness :
    (Get "user." zeroAdapter zeroAdapter "/tmp/f" "foo" ≠ .panicked
      ∧ ListAttrs "user." zeroAdapter zeroAdapter "/tmp/f" ≠ .panicked)
    ∧ (Get "user." oneAdapter overReportAdapter "/tmp/f" "foo" = .panicked
      ∧ ListAttrs "user." oneAdapter overReportAdapter "/tmp/f"
        = .panicked) :=
  c9_no_panic "user." zeroAdapter zeroAdapter "/tmp/f" "foo"
    (by intro p q w sz h; cases h; decide)
    (by intro p q d w sz h; cases h; exact ⟨le_refl 0, Int.ofNat_nonneg _⟩)
    (by intro p w sz h; cases h; decide)
    (by intro p d w sz h; cases h; exact ⟨le_refl 0, Int.ofNat_nonneg _⟩)

/-- Modelled from the spec: the kernel-side attribute store the adapters
operate on — a map from (path, attribute name) to value bytes, most
recent binding first. -/
abbrev FS := List ((String × String) × Bytes)

/-- Look up the stored value for a path and (already prefixed) name. -/
def fsLookup (fs : FS) (path attr : String) : Option Bytes :=
  (fs.find? (fun kv => kv.1 == (path, attr))).map (fun kv => kv.2)

/-- Modelled from the spec: the platform adapter's `get` (missing from
src): with a nil destination it reports the required size; otherwise it
writes the value and reports its size, or fails with `ERANGE` when the
destination is too small; an absent attribute is the platform's absent
errno. -/
def adapterGet (fs : FS) (path attr : String) (dest : Option Bytes) : SysRet :=
  match fsLookup fs path attr with
  | none => ⟨[], 0, some ENODATA⟩
  | some v =>
      match dest with
      | none => ⟨[], (v.length : Int), none⟩
      | some d =>
          if v.length ≤ d.length then ⟨v, (v.length : Int), none⟩
          else ⟨[], 0, some ERANGE⟩

/-- The NUL-terminated concatenation of the stored names for a path. -/
def fsNamesBlob (fs : FS) (path : String) : Bytes :=
  (fs.filter (fun kv => kv.1.1 == path)).foldr
    (fun kv acc => kv.1.2.data.map Char.toNat ++ [0] ++ acc) []

/-- Modelled from the spec: the platform adapter's `list` (missing from
src), with the same size-or-fill convention as `adapterGet`. -/
def adapterList (fs : FS) (path : String) (dest : Option Bytes) : SysRet :=
  let blob := fsNamesBlob fs path
  match dest with
  | none => ⟨[], (blob.length : Int), none⟩
  | some d =>
      if blob.length ≤ d.length then ⟨blob, (blob.length : Int), none⟩
      else ⟨[], 0, some ERANGE⟩

/-- Modelled from the spec: the platform adapter's `set` (missing from
src). Only `flags = 0` is exercised by the facade: create-or-replace.
Returns the new store and the error. -/
def adapterSet (fs : FS) (path attr : String) (data : Bytes)
    (_flags : Int) : FS × Option GoErr :=
  (((path, attr), data) :: fs, none)

/-- Modelled from the spec: the platform adapter's `remove` (missing
from src): drops the binding, failing on an absent attribute. -/
def adapterRemove (fs : FS) (path attr : String) : FS × Option GoErr :=
  match fsLookup fs path attr with
  | none => (fs, some ENODATA)
  | some _ => (fs.filter (fun kv => !(kv.1 == (path, attr))), none)

/-- The read-only adapter view of a quiescent store: both syscalls of a
`Get` observe the same state. -/
def fsAdapter (fs : FS) : Adapter where
  get := fun path attr dest => adapterGet fs path attr dest
  set := fun _ _ _ _ => none
  list := fun path dest => adapterList fs path dest
  remove := fun path attr => (adapterRemove fs path attr).2

/-- `Set` run against the attribute store: the facade logic of `SetAttr`
with the state change of `adapterSet` made explicit. -/
def SetAttrFS (pfx : String) (fs : FS) (path attr : String) (data : Bytes) :
    FS × Option GoErr :=
  let attr2 := pfx ++ attr
  let r := adapterSet fs path attr2 data 0
  match r.2 with
  | some e => (r.1, some (.xattrError "setxattr" path attr2 e))
  | none => (r.1, none)

/-- A full write leaves exactly the written bytes in the buffer. -/
theorem writeInto_full (buf w : Bytes) (h : w.length = buf.length) :
    writeInto buf w = w := by
  rw [writeInto, h, List.drop_length, List.append_nil, ← h, List.take_length]

/-- C4: a successful `SetAttrFS` followed by `Get` on the resulting
quiescent store returns exactly the stored bytes with nil error. -/
theorem c4_set_get_roundtrip (pfx : String) (fs fs2 : FS)
    (path attr : String) (data : Bytes)
    (h : SetAttrFS pfx fs path attr data = (fs2, none)) :
    Get pfx (fsAdapter fs2) (fsAdapter fs2) path attr
      = .ok (some data, none) := by
  have hfs2 : fs2 = ((path, pfx ++ attr), data) :: fs := by
    unfold SetAttrFS adapterSet at h
    simp only [] at h
    exact (Prod.mk.injEq _ _ _ _ ▸ h).1.symm
  subst hfs2
  have hlk : fsLookup (((path, pfx ++ attr), data) :: fs) path (pfx ++ attr)
      = some data := by
    simp [fsLookup]
  by_cases hd : data = []
  · subst hd
    have h1 : (fsAdapter (((path, pfx ++ attr), ([] : Bytes)) :: fs)).get
        path (pfx ++ attr) none = ⟨[], 0, none⟩ := by
      simp [fsAdapter, adapterGet, hlk]
    unfold Get Getxattr
    simp only []
    rw [h1]
    rfl
  · have hlen : 0 < data.length := List.length_pos.mpr hd
    have h1 : (fsAdapter (((path, pfx ++ attr), data) :: fs)).get
        path (pfx ++ attr) none = ⟨[], (data.length : Int), none⟩ := by
      simp [fsAdapter, adapterGet, hlk]
    have hrep : (List.replicate ((data.length : Int)).toNat (0 : Nat)).length
        = data.length := by
      simp
    have h2 : (fsAdapter (((path, pfx ++ attr), data) :: fs)).get
        path (pfx ++ attr)
        (some (List.replicate ((data.length : Int)).toNat 0))
        = ⟨data, (data.length : Int), none⟩ := by
      simp [fsAdapter, adapterGet, hlk, hrep]
    have hfill := Get_fill_result pfx
      (fsAdapter (((path, pfx ++ attr), data) :: fs))
      (fsAdapter (((path, pfx ++ attr), data) :: fs))
      path attr [] data (data.length : Int) (data.length : Int)
      h1 (by exact_mod_cast hlen) h2 (Int.ofNat_nonneg _) le_rfl
    rw [hfill, writeInto_full _ _ (by rw [hrep]), Int.toNat_natCast,
      List.take_length]

/-- C4 at a concrete input: storing `"bar"` (`[98, 97, 114]`) under
`"foo"` on `"/tmp/f"` and reading it back returns exactly those bytes. -/
theorem c4_roundtrip_witness :
    Get "user." (fsAdapter [(("/tmp/f", "user.foo"), [98, 97, 114])])
      (fsAdapter [(("/tmp/f", "user.foo"), [98, 97, 114])]) "/tmp/f" "foo"
      = .ok (some [98, 97, 114], none) :=
  c4_set_get_roundtrip "user." [] [(("/tmp/f", "user.foo"), [98, 97, 114])]
    "/tmp/f" "foo" [98, 97, 114] (by decide)
